import Mathlib

/-!
# Verification of the sool-builder cross-chip unification engine

Shallow embedding of the data model and algorithms of the SooL builder
(`src/structure/peripheral.py`, `src/structure/component.py`,
`src/structure/register.py`, `src/cleaners/peripheral_cleaners.py`)
together with proofs and refutations of the specification claims.

Conventions of the embedding:
* Python objects become Lean structures; destructive mutation becomes
  explicit state passing (functions return the updated objects).
* A Python `dict` (insertion ordered) becomes an association list
  `List (Nat × _)`; well-formed dicts have pairwise distinct keys.
* Chip sets (`structure/chipset.py`, not part of the analysed sources)
  are modelled from the spec as finite sets of chip identifiers whose
  `add` operation is set union.
* `logger.warning` / `logger.error` calls become emitted `Diag` values.
* Raised Python exceptions become `Except` error results.
-/

/-- Modelled from the spec: `ChipSet` (`structure/chipset.py` is not among the
analysed sources).  "Chip Scope: set of chip identifiers ... Union is
commutative/associative/idempotent; equality is set equality."  Chip
identifiers are abstracted to naturals; `ChipSet.add` is `∪`. -/
abbrev ChipSet := Finset Nat

/-- Diagnostics emitted through `logger` by the merge engine.
`Diag.renameDiag l o` stands for the `logger.warning` at
`peripheral.py:331` (automatic register rename, carrying the local and the
other register name); `Diag.multiMapping` stands for the `logger.error`
"multiple mappings on new peripheral" at `peripheral.py:174`. -/
inductive Diag where
  | renameDiag (localName otherName : String)
  | multiMapping
  deriving DecidableEq

instance {e a : Type} [DecidableEq e] [DecidableEq a] : DecidableEq (Except e a) :=
  fun x y =>
    match x, y with
    | .error u, .error v =>
      if h : u = v then isTrue (congrArg Except.error h)
      else isFalse (fun hh => h (Except.error.inj hh))
    | .ok u, .ok v =>
      if h : u = v then isTrue (congrArg Except.ok h)
      else isFalse (fun hh => h (Except.ok.inj hh))
    | .error _, .ok _ => isFalse (fun hh => Except.noConfusion hh)
    | .ok _, .error _ => isFalse (fun hh => Except.noConfusion hh)

/-- The register view used by `peripheral.py`.  The fields relevant to the
merge engine are the mutable `name`, the chip scope and the observable bit
layout.  The bit layout (variants / fields with their bit offsets and
widths) is abstracted to a finite set of field identifiers `fields`
together with the bit width `size`; this is all the mapping-merge logic
inspects. -/
structure MReg where
  name : String
  size : Nat
  chips : ChipSet
  fields : Finset Nat
  deriving DecidableEq

/-- Modelled from the spec: register-level `mapping_equivalent_to`, called at
`peripheral.py:327` but absent from the analysed sources.  Per the spec it
judges "identical bit layout" / "identical observable content
(registers/fields) though possibly different names", so it compares the
abstracted layout (field set and bit width) and ignores the name. -/
def MReg.mapping_equivalent_to (self other : MReg) : Prop :=
  self.fields = other.fields ∧ self.size = other.size

instance : DecidablePred (fun p : MReg × MReg => p.1.mapping_equivalent_to p.2) :=
  fun _ => by unfold MReg.mapping_equivalent_to; infer_instance

instance (a b : MReg) : Decidable (a.mapping_equivalent_to b) := by
  unfold MReg.mapping_equivalent_to; infer_instance

/-- Modelled from the spec: register-level `merge_register`, called at
`peripheral.py:340` but absent from the analysed sources.  Per the spec
(inter-document register merge, cf. `Register.inter_svd_merge` in
`register.py`) it keeps the receiver's name, unions the chip scopes,
takes the larger bit width and merges the field content. -/
def MReg.merge_register (self other : MReg) : MReg :=
  { name := self.name
    size := max self.size other.size
    chips := self.chips ∪ other.chips
    fields := self.fields ∪ other.fields }

/-- Association-list lookup, the model of Python `d[k]` / `k in d` on the
insertion-ordered `register_mapping` dict. -/
def alookup : List (Nat × MReg) → Nat → Option MReg
  | [], _ => none
  | (a, r) :: rest, x => if a = x then some r else alookup rest x

/-- Association-list value replacement, the model of mutating the register
object stored at a key (or `d[k] = v` on an existing key). -/
def aupdate : List (Nat × MReg) → Nat → MReg → List (Nat × MReg)
  | [], _, _ => []
  | (a, r) :: rest, x, nr =>
    if a = x then (a, nr) :: aupdate rest x nr else (a, r) :: aupdate rest x nr

/-- The keys of an association list, in order. -/
def akeys (l : List (Nat × MReg)) : List Nat := l.map Prod.fst

/-- Well-formedness of the dict model: pairwise distinct keys. -/
def keysNodup (l : List (Nat × MReg)) : Prop := (akeys l).Nodup

instance (l : List (Nat × MReg)) : Decidable (keysNodup l) := by
  unfold keysNodup; infer_instance

/-- `PeripheralMapping` (`peripheral.py:237`): a chip scope plus the
insertion-ordered `register_mapping` dict from byte offset to register.
The unused bookkeeping fields (`name`, set late, and the `reference`
back-pointer, used only inside the warning text) are omitted. -/
structure MM where
  chips : ChipSet
  register_mapping : List (Nat × MReg)
  deriving DecidableEq

/-- State threaded through the first loop of
`PeripheralMapping.merge_mapping` (`peripheral.py:323-336`): the current
contents of both register dicts (renames mutate registers in place on both
sides) and the diagnostics emitted so far. -/
structure P1St where
  s : List (Nat × MReg)
  o : List (Nat × MReg)
  log : List Diag
  deriving DecidableEq

/-- The rename tie-break of `merge_mapping` (`peripheral.py:330`):
`local_name if len(local_name) <= len(other_name) else other_name` — the
shorter of the two names, the receiver's name on a length tie. -/
def shorterName (localName otherName : String) : String :=
  if localName.length ≤ otherName.length then localName else otherName

/-- The body of the first loop of `merge_mapping` (`peripheral.py:323-336`)
for one incoming offset.  At a shared offset whose registers carry
different names: if they are layout-equivalent both registers are renamed
in place to the shorter name and a warning is logged (second component
`true` = keep looping); otherwise the function aborts (second component
`false` = `return False`), keeping every mutation already performed. -/
def phase1Step (addr : Nat) (st : P1St) : P1St × Bool :=
  match alookup st.s addr, alookup st.o addr with
  | some lr, some orr =>
    if orr.name = lr.name then
      (st, true)
    else if orr.mapping_equivalent_to lr then
      let nn := shorterName lr.name orr.name
      ({ s := aupdate st.s addr { lr with name := nn }
         o := aupdate st.o addr { orr with name := nn }
         log := st.log ++ [Diag.renameDiag lr.name orr.name] }, true)
    else
      (st, false)
  | _, _ => (st, true)

/-- First loop of `merge_mapping` (`peripheral.py:323-336`), iterating over
the offsets of the incoming dict in insertion order, aborting on the first
incompatible shared offset.  Returns the final state and the success
flag. -/
def phase1 : List Nat → P1St → P1St × Bool
  | [], st => (st, true)
  | addr :: rest, st =>
    let r := phase1Step addr st
    if r.2 then phase1 rest r.1 else (r.1, false)

/-- Second loop of `merge_mapping` (`peripheral.py:338-342`): every entry of
the (possibly renamed) incoming dict is merged into the receiver — an
offset already present has its register merged via `merge_register`, a new
offset is inserted at the end ("hole filling"). -/
def phase2 : List (Nat × MReg) → List (Nat × MReg) → List (Nat × MReg)
  | s, [] => s
  | s, (a, r) :: rest =>
    match alookup s a with
    | some lr => phase2 (aupdate s a (lr.merge_register r)) rest
    | none => phase2 (s ++ [(a, r)]) rest

/-- Result of `merge_mapping`: the Python boolean return value plus the
final states of the receiving mapping (`self`), the incoming mapping
(`other`, also mutated by renames) and the emitted diagnostics. -/
structure MMResult where
  ok : Bool
  self1 : MM
  other1 : MM
  log : List Diag
  deriving DecidableEq

/-- `PeripheralMapping.merge_mapping` (`peripheral.py:310-345`).  Runs the
rename/compatibility loop over the incoming offsets; on success runs the
merging loop and extends the receiver's chip scope (`self.chips.add` at
line 343); on failure returns immediately, retaining any renames already
performed by the first loop. -/
def merge_mapping (self other : MM) : MMResult :=
  let st0 : P1St := ⟨self.register_mapping, other.register_mapping, []⟩
  let res := phase1 (akeys other.register_mapping) st0
  if res.2 then
    { ok := true
      self1 := ⟨self.chips ∪ other.chips, phase2 res.1.s res.1.o⟩
      other1 := ⟨other.chips, res.1.o⟩
      log := res.1.log }
  else
    { ok := false
      self1 := ⟨self.chips, res.1.s⟩
      other1 := ⟨other.chips, res.1.o⟩
      log := res.1.log }

/-- `PeripheralInstance` (`peripheral.py:361`): a named placement at an
address with a chip scope; equality is by `(name, address)`
(`peripheral.py:371-373`). -/
structure PInstance where
  name : String
  address : Nat
  chips : ChipSet
  deriving DecidableEq

/-- `PeripheralInstance.__eq__` on two instances (`peripheral.py:371-373`):
equality by `(name, address)`, ignoring the chip scope. -/
def PInstance.sameKey (a b : PInstance) : Bool :=
  a.name = b.name ∧ a.address = b.address

/-- `Peripheral` (`peripheral.py:16`) restricted to the state the merge
engine manipulates: chip scope, register list, instances and mappings.
(`name`, `brief`, `group`, `variance_id` and the parsed XML are not read
by `merge_peripheral`.) -/
structure Peripheral where
  chips : ChipSet
  registers : List MReg
  instances : List PInstance
  mappings : List MM
  deriving DecidableEq

/-- The register-reconciliation loop of `merge_peripheral`
(`peripheral.py:162-169`), exception-faithful.  Each iteration evaluates
the membership test `reg.name in self`: `Peripheral` defines no
`__contains__`, so Python iterates the accumulator's registers (through
`Peripheral.__getitem__`) and compares the string against each register
object — and with the `Register` of `register.py` the FIRST such
comparison raises `TypeError` (`register.py:108`; this is the same
mechanism as `strInRegisters` below).  Hence the test can only return
`False`, and only while the accumulator's register list is empty; the
same-name merge branch (`peripheral.py:165-167`) is unreachable.  So the
loop appends an incoming register while the accumulator list is empty
(`peripheral.py:169`) and raises at the first incoming register faced
with a non-empty accumulator list — note the list grows as it appends, so
a second incoming register always raises. -/
def mergeRegistersPhase : List MReg → List MReg → Except String (List MReg)
  | acc, [] => .ok acc
  | [], reg :: rest => mergeRegistersPhase [reg] rest
  | _ :: _, _ :: _ => .error "TypeError"

/-- The inner loop of mapping reconciliation (`peripheral.py:178-182`):
`merge_mapping` is attempted against every existing mapping in list order;
the first success stops the scan.  Returns the updated mapping list (every
attempted mapping replaced by its possibly-mutated version), the final
state of the incoming mapping (failed attempts may have renamed its
registers), whether some attempt succeeded, and the diagnostics. -/
def attemptMerge : List MM → MM → List MM × MM × Bool × List Diag
  | [], om => ([], om, false, [])
  | m :: rest, om =>
    let r := merge_mapping m om
    if r.ok then
      (r.self1 :: rest, r.other1, true, r.log)
    else
      let t := attemptMerge rest r.other1
      (r.self1 :: t.1, t.2.1, t.2.2.1, r.log ++ t.2.2.2)

/-- Mapping reconciliation for one incoming mapping
(`peripheral.py:176-186`): on a successful attempt the receiver's chip
scope is extended by the incoming mapping's chips (line 180); when every
attempt fails the incoming mapping is appended to the mapping list and the
chip scope is extended all the same (lines 184-186). -/
def mergeMappingsPhase (ms : List MM) (chips : ChipSet) (om : MM) :
    List MM × ChipSet × List Diag :=
  let t := attemptMerge ms om
  if t.2.2.1 then
    (t.1, chips ∪ t.2.1.chips, t.2.2.2)
  else
    (t.1 ++ [t.2.1], chips ∪ t.2.1.chips, t.2.2.2)

/-- Extending the chip scope of the instance at a given position in the
list, the model of `equivalent_instance.chips.add(...)`
(`peripheral.py:205`) where `equivalent_instance` aliases a list member. -/
def extendChipsAt : List PInstance → Nat → ChipSet → List PInstance
  | [], _, _ => []
  | i :: rest, 0, cs => { i with chips := i.chips ∪ cs } :: rest
  | i :: rest, n + 1, cs => i :: extendChipsAt rest n cs

/-- The instance-reconciliation loop of `merge_peripheral`
(`peripheral.py:189-206`), iterating over the incoming instances.
`eqIdx` models the `equivalent_instance` variable: it is initialised to
`None` once, BEFORE the loop (line 156), and is never reset between
iterations — when the inner scan (lines 191-194) finds no `(name,
address)` match, the stale value from a previous iteration is still in
effect.  A `None` value appends a fresh instance carrying the incoming
peripheral's chips (lines 198-203); otherwise the referenced instance's
chips are extended by the incoming peripheral's chips (line 205).  Both
branches extend the accumulator's chips by the incoming instance's chips. -/
def instGo (otherChips : ChipSet) :
    List PInstance → List PInstance → ChipSet → Option Nat → List PInstance × ChipSet
  | [], insts, chips, _ => (insts, chips)
  | oi :: rest, insts, chips, eqIdx =>
    let found := insts.findIdx? (fun i => i.sameKey oi)
    match (match found with | some i => some i | none => eqIdx) with
    | none =>
      instGo otherChips rest (insts ++ [⟨oi.name, oi.address, otherChips⟩])
        (chips ∪ oi.chips) (some insts.length)
    | some i =>
      instGo otherChips rest (extendChipsAt insts i otherChips)
        (chips ∪ oi.chips) (some i)

/-- `Peripheral.merge_peripheral` (`peripheral.py:148-206`): union of chip
scopes, register reconciliation, mapping reconciliation (with the
"multiple mappings on new peripheral" error when the incoming peripheral
does not carry exactly one mapping), then instance reconciliation.  A
raised `TypeError` from the register loop propagates out of
`merge_peripheral` (in the running program the accumulator is left
partially mutated at that point — the chip union of line 159 and at most
one appended register — but no later phase runs; the model returns only
the exception, as no claim concerns the abandoned accumulator state). -/
def merge_peripheral (self other : Peripheral) : Except String Peripheral :=
  let chips0 := self.chips ∪ other.chips
  match mergeRegistersPhase self.registers other.registers with
  | .error e => .error e
  | .ok regs =>
    let mstate := other.mappings.foldl
      (fun (p : List MM × ChipSet × List Diag) om =>
        let q := mergeMappingsPhase p.1 p.2.1 om
        (q.1, q.2.1, p.2.2 ++ q.2.2))
      (self.mappings, chips0,
        if other.mappings.length = 1 then [] else [Diag.multiMapping])
    let istate := instGo other.chips other.instances self.instances mstate.2.1 none
    .ok { chips := istate.2
          registers := regs
          instances := istate.1
          mappings := mstate.1 }

/-- `Component` (`component.py:29`) restricted to the state `needs_define`
reads: the stored name (already bracket-substituted by the setter), the
chip scope, and the parent back-reference. -/
inductive Component where
  | mk (name : Option String) (chips : ChipSet) (parent : Option Component)

/-- The stored `_name` of a component. -/
def Component.name : Component → Option String
  | .mk n _ _ => n

/-- The chip scope of a component. -/
def Component.chips : Component → ChipSet
  | .mk _ c _ => c

/-- The parent back-reference of a component. -/
def Component.parent : Component → Option Component
  | .mk _ _ p => p

/-- `Component.needs_define` (`component.py:163-171`): true iff the name is
non-null, the parent is non-null, and the chip scope differs from the
parent's chip scope.  (The spec calls this property `needs_guard`.) -/
def Component.needs_define (c : Component) : Bool :=
  c.name.isSome &&
    (match c.parent with
     | none => false
     | some p => decide (c.chips ≠ p.chips))

/-- The bracket substitution of the name setter (`component.py:61`):
`new.replace("[","_").replace("]","")`.  Both patterns are single
characters, so the two replacements are exactly a character-wise
substitution of `[` by `_` followed by dropping every `]`. -/
def bracketSub (s : String) : String :=
  ⟨((s.data.map (fun c => if c = '[' then '_' else c)).filter (fun c => ¬ (c = ']')))⟩

/-- Python `str.isidentifier` restricted to ASCII text (identifier =
letter or underscore followed by letters, digits or underscores); a
builtin, not repository code. -/
def pyIsIdentifier (s : String) : Bool :=
  match s.data with
  | [] => false
  | c :: rest => (c.isAlpha || c = '_') && rest.all (fun d => d.isAlphanum || d = '_')

/-- Python `str.isalnum` restricted to ASCII text; a builtin, not
repository code. -/
def pyIsAlnum (s : String) : Bool :=
  !s.data.isEmpty && s.data.all Char.isAlphanum

/-- The name-bearing state of a component, as read and written by the
`name` property setter. -/
structure NameSlot where
  stored : Option String
  edited : Bool
  deriving DecidableEq

/-- The `name` setter (`component.py:57-65`).  When the new value differs
from the stored one: a non-null value has `[` substituted by `_` and `]`
removed, then — if the result is neither an identifier nor alphanumeric —
an error is logged (second component `true`), and the value is stored
REGARDLESS of the check's outcome; `edited` is set. -/
def setName (st : NameSlot) (new : Option String) : NameSlot × Bool :=
  if new = st.stored then
    (st, false)
  else
    match new with
    | none => (⟨none, true⟩, false)
    | some n =>
      let n2 := bracketSub n
      (⟨some n2, true⟩, !pyIsIdentifier n2 && !pyIsAlnum n2)

/-- The corrector objects driving the two-phase correction hooks
(`before_svd_compile` / `after_svd_compile`, `component.py:212-230`).
Modelled from the spec: the corrector class itself is not among the
analysed sources; per the spec and the call pattern of the source it is
"a mapping from stable node identity to an ordered list of pure mutation
functions" which is also callable on the node.  `label` identifies the
mutation function, `sub` is the mapping from a child's node identity to
the ordered corrector list for that child (absent identities yield the
empty list, the model of the `None`/empty check at `component.py:219`). -/
inductive Corrector where
  | mk (label : Nat) (sub : List (Nat × List Corrector))

/-- The identity of a corrector's own mutation function. -/
def Corrector.label : Corrector → Nat
  | .mk l _ => l

/-- `parent_corrector[self]` (`component.py:217`): the ordered corrector
list this corrector associates with a node identity. -/
def Corrector.lookup (c : Corrector) (i : Nat) : List Corrector :=
  match c with
  | .mk _ sub =>
    match sub.find? (fun p => p.1 == i) with
    | some p => p.2
    | none => []

/-- A component tree for the correction traversal: a node identity plus
the ordered children (`for child in self`). -/
inductive CTree where
  | node (id : Nat) (children : List CTree)

/-- A corrector application event: `(corrector label, node identity)`,
recording that `corrector(self)` ran on that node. -/
abbrev Event := Nat × Nat

mutual
/-- `Component.before_svd_compile` (`component.py:212-230`) as a trace
semantics: the list of corrector applications `corrector(self)` in
execution order.  The node looks up its corrector list in the supplied
parent corrector; when it is non-empty, for EACH corrector the children
are recursed with that corrector first and only then is the corrector
applied to the node itself (line 225 comes after the loop of lines
222-224); when it is empty the children are recursed with `None`. -/
def bsc : CTree → Option Corrector → List Event
  | .node i cs, pc =>
    let cors := match pc with | none => [] | some c => c.lookup i
    match cors with
    | [] => bscKids cs none
    | _ :: _ => bscPasses cors cs i
termination_by t _ => (sizeOf t, 0)
/-- The passes of `before_svd_compile`: one pass per corrector of the node,
in order; each pass recurses into the children with that corrector and
then applies the corrector to the node itself. -/
def bscPasses : List Corrector → List CTree → Nat → List Event
  | [], _, _ => []
  | cor :: rest, cs, i => bscKids cs (some cor) ++ ((cor.label, i) :: bscPasses rest cs i)
termination_by cors cs _ => (sizeOf cs, sizeOf cors)
/-- The child loop of `before_svd_compile`: recurse into every child in
order with the given corrector. -/
def bscKids : List CTree → Option Corrector → List Event
  | [], _ => []
  | t :: rest, pc => bsc t pc ++ bscKids rest pc
termination_by cs _ => (sizeOf cs, 0)
end

/-- `RegisterVariant` as consumed by `Register.__eq__`
(`register.py:93-108`): an ordered field list (fields abstracted to
identifiers) and the template-deferred marker `for_template`. -/
structure RegV where
  fields : List Nat
  for_template : Bool
  deriving DecidableEq

/-- The `Register` of `register.py` as consumed by its `__eq__`: a name and
the variant list. -/
structure Reg where
  name : String
  variants : List RegV
  deriving DecidableEq

/-- `field in register` (`Register.__contains__` with a `Field`,
`register.py:79-83`): some variant contains the field. -/
def Reg.hasField (r : Reg) (f : Nat) : Bool :=
  r.variants.any (fun v => v.fields.contains f)

/-- The structural branch of `Register.__eq__` (`register.py:93-107`):
every field of every non-template variant of each side is contained in the
other side. -/
def regStructEq (a b : Reg) : Bool :=
  a.variants.all (fun v => v.for_template || v.fields.all (fun f => b.hasField f)) &&
  b.variants.all (fun v => v.for_template || v.fields.all (fun f => a.hasField f))

/-- A Python value appearing as the right operand of `Register.__eq__`:
either another register or a string. -/
inductive PyVal where
  | pyreg (r : Reg)
  | pystr (s : String)
  deriving DecidableEq

/-- `Register.__eq__` (`register.py:93-108`): structural comparison when the
operand is a `Register`, otherwise `raise TypeError(...)` — modelled as an
`Except` error. -/
def register_eq (self : Reg) : PyVal → Except String Bool
  | .pyreg o => .ok (regStructEq self o)
  | .pystr _ => .error "TypeError"

/-- Evaluation of the Python expression `s == r` for a string `s` and a
`Register` `r`: `str.__eq__` returns `NotImplemented` for a non-string
operand, so Python falls back to the reflected `Register.__eq__(r, s)`,
which raises (language semantics, not repository code). -/
def strEqRegister (s : String) (r : Reg) : Except String Bool :=
  register_eq r (.pystr s)

/-- Evaluation of `s in p` for a string `s` and a `Peripheral` `p`:
`Peripheral` defines no `__contains__`, so Python iterates the peripheral
(which yields its registers through `Peripheral.__getitem__`,
`peripheral.py:71-85`) and evaluates `s == register` on each element,
propagating any raised exception.  This is the membership used by
`merge_peripheral` (`reg.name in self`, `peripheral.py:163`) and by the
classification cleaners (`"TIMINGR" in periph`,
`peripheral_cleaners.py:137`). -/
def strInRegisters (s : String) : List Reg → Except String Bool
  | [] => .ok false
  | r :: rest =>
    match strEqRegister s r with
    | .error e => .error e
    | .ok true => .ok true
    | .ok false => strInRegisters s rest

/-- The peripheral view consumed by `I2C_periph_cleaner`: the logical name
it may assign and the register list its membership tests iterate. -/
structure CleanerPeriph where
  name : Option String
  registers : List Reg
  deriving DecidableEq

/-- `I2C_periph_cleaner` (`peripheral_cleaners.py:135-138`): assigns the
name `FMPI2C` when the peripheral contains the `TIMINGR`, `TIMEOUTR` and
`PECR` registers; the Python `and` short-circuits, and each membership
test may raise. -/
def I2C_periph_cleaner (p : CleanerPeriph) : Except String CleanerPeriph := do
  let a ← strInRegisters "TIMINGR" p.registers
  if a then
    let b ← strInRegisters "TIMEOUTR" p.registers
    if b then
      let c ← strInRegisters "PECR" p.registers
      if c then
        pure { p with name := some "FMPI2C" }
      else
        pure p
    else
      pure p
  else
    pure p

/-- The compatibility invariant of the spec's hole-filling hypothesis,
stated on the loop state: every offset present in both dicts currently
holds registers that are same-named or layout-equivalent. -/
def compatSt (st : P1St) : Prop :=
  ∀ a lr orr, alookup st.s a = some lr → alookup st.o a = some orr →
    orr.name = lr.name ∨ orr.mapping_equivalent_to lr

/-! ## Concrete inputs used by the counterexamples and witnesses -/

/-- Receiving mapping for the atomicity refutation: three offsets, the
registers at 0 and 4 renameable against the incoming side, the one at 8
incompatible. -/
def c1self : MM :=
  ⟨{0}, [(0, ⟨"STATUS", 32, {0}, {1}⟩), (4, ⟨"A", 32, {0}, {2}⟩),
    (8, ⟨"K", 32, {0}, {3}⟩)]⟩

/-- Incoming mapping for the atomicity refutation. -/
def c1other : MM :=
  ⟨{1}, [(0, ⟨"SR1", 32, {1}, {1}⟩), (4, ⟨"ZZZZ", 32, {1}, {2}⟩),
    (8, ⟨"W", 32, {1}, {9}⟩)]⟩

/-- Receiving mapping of the spec's Scenario 2: a register named `STATUS`. -/
def c3self : MM := ⟨{0}, [(0, ⟨"STATUS", 32, {0}, {1}⟩)]⟩

/-- Incoming mapping of the spec's Scenario 2: the same layout named `SR1`. -/
def c3other : MM := ⟨{1}, [(0, ⟨"SR1", 32, {1}, {1}⟩)]⟩

/-- Accumulator peripheral for the instance-reconciliation bug: no
instances yet. -/
def c4self : Peripheral := ⟨{0}, [], [], [⟨{0}, []⟩]⟩

/-- Incoming peripheral for the instance-reconciliation bug: two instances,
neither matching anything in the accumulator. -/
def c4other : Peripheral := ⟨{1}, [], [⟨"A", 0, {1}⟩, ⟨"B", 4, {1}⟩], [⟨{1}, []⟩]⟩

/-- Accumulator peripheral whose only mapping is incompatible with the
incoming one. -/
def c7self : Peripheral := ⟨{0}, [], [], [⟨{0}, [(0, ⟨"R", 32, {0}, {1}⟩)]⟩]⟩

/-- The incoming mapping rejected by every mapping of `c7self`. -/
def c7om : MM := ⟨{1}, [(0, ⟨"Q", 32, {1}, {2}⟩)]⟩

/-- Incoming peripheral carrying `c7om` as its only mapping. -/
def c7other : Peripheral := ⟨{1}, [], [], [c7om]⟩

/-- A parent component with scope `{1, 2}`. -/
def c2parent : Component := .mk none {1, 2} none

/-- A named child whose scope is a strict non-empty subset of its
parent's. -/
def c2guarded : Component := .mk (some "REG") {1} (some c2parent)

/-- A named child whose scope equals its parent's. -/
def c2unguarded : Component := .mk (some "REG") {1, 2} (some c2parent)

/-- The corrector attached to the child node 2 of the C8 counterexample. -/
def c8leafCor : Corrector := .mk 1 []

/-- The corrector attached to the root node 1: its own mutation function is
labelled 0, and it maps child node 2 to `c8leafCor`. -/
def c8cor : Corrector := .mk 0 [(2, [c8leafCor])]

/-- The top-level corrector mapping handed to `before_svd_compile`. -/
def c8top : Corrector := .mk 99 [(1, [c8cor])]

/-- A two-node tree: root 1 with the single child 2. -/
def c8tree : CTree := .node 1 [.node 2 []]

/-- A register of the `register.py` kind, used to exercise
`Register.__eq__` against a string. -/
def c10reg : Reg := ⟨"CR1", [⟨[1], false⟩]⟩

/-- A peripheral holding one register, as seen by `I2C_periph_cleaner`. -/
def c10periph : CleanerPeriph := ⟨none, [c10reg]⟩

/-! ## Lemmas about the association-list dict model -/

theorem alookup_aupdate_ne (l : List (Nat × MReg)) (a b : Nat) (r : MReg) (h : b ≠ a) :
    alookup (aupdate l a r) b = alookup l b := by
  induction l with
  | nil => rfl
  | cons hd tl ih =>
    obtain ⟨k, v⟩ := hd
    by_cases hk : k = a
    · subst hk
      simp only [aupdate, if_pos rfl, alookup]
      rw [if_neg (fun hh => h hh.symm), if_neg (fun hh => h hh.symm)]
      exact ih
    · simp only [aupdate, if_neg hk, alookup]
      by_cases hb : k = b
      · rw [if_pos hb, if_pos hb]
      · rw [if_neg hb, if_neg hb]
        exact ih

theorem akeys_aupdate (l : List (Nat × MReg)) (a : Nat) (r : MReg) :
    akeys (aupdate l a r) = akeys l := by
  induction l with
  | nil => rfl
  | cons hd tl ih =>
    obtain ⟨k, v⟩ := hd
    by_cases hk : k = a
    · simp only [aupdate, if_pos hk, akeys, List.map_cons]
      exact congrArg _ ih
    · simp only [aupdate, if_neg hk, akeys, List.map_cons]
      exact congrArg _ ih

theorem alookup_aupdate_self (l : List (Nat × MReg)) (a : Nat) (r : MReg)
    (h : a ∈ akeys l) : alookup (aupdate l a r) a = some r := by
  induction l with
  | nil => simp [akeys] at h
  | cons hd tl ih =>
    obtain ⟨k, v⟩ := hd
    by_cases hk : k = a
    · simp only [aupdate, if_pos hk, alookup, if_pos hk]
    · simp only [aupdate, if_neg hk, alookup, if_neg hk]
      simp only [akeys, List.map_cons, List.mem_cons] at h
      exact ih (h.resolve_left (fun hh => hk hh.symm))

theorem alookup_none_iff (l : List (Nat × MReg)) (a : Nat) :
    alookup l a = none ↔ a ∉ akeys l := by
  induction l with
  | nil => simp [alookup, akeys]
  | cons hd tl ih =>
    obtain ⟨k, v⟩ := hd
    by_cases hk : k = a
    · subst hk
      simp [alookup, akeys]
    · simp only [alookup, if_neg hk, akeys, List.map_cons, List.mem_cons, not_or, ih]
      constructor
      · exact fun h => ⟨fun hh => hk hh.symm, h⟩
      · exact fun h => h.2

theorem alookup_mem_of_nodup (l : List (Nat × MReg)) (a : Nat) (r : MReg)
    (hnd : keysNodup l) (hm : (a, r) ∈ l) : alookup l a = some r := by
  induction l with
  | nil => simp at hm
  | cons hd tl ih =>
    obtain ⟨k, v⟩ := hd
    simp only [keysNodup, akeys, List.map_cons, List.nodup_cons] at hnd
    rcases List.mem_cons.mp hm with heq | htl
    · obtain ⟨h1, h2⟩ := Prod.mk.injEq .. ▸ heq
      simp [alookup, h1.symm, h2]
    · have hka : k ≠ a := by
        intro hk
        exact hnd.1 (hk ▸ List.mem_map.mpr ⟨(a, r), htl, rfl⟩)
      simp only [alookup, if_neg hka]
      exact ih hnd.2 htl

theorem aupdate_not_mem (l : List (Nat × MReg)) (a : Nat) (r : MReg)
    (h : a ∉ akeys l) : aupdate l a r = l := by
  induction l with
  | nil => rfl
  | cons hd tl ih =>
    obtain ⟨k, v⟩ := hd
    simp only [akeys, List.map_cons, List.mem_cons, not_or] at h
    have hk : ¬(k = a) := fun hh => h.1 hh.symm
    simp only [aupdate, if_neg hk]
    exact congrArg _ (ih h.2)

theorem aupdate_eq_self (l : List (Nat × MReg)) (a : Nat) (r : MReg)
    (hnd : keysNodup l) (hm : (a, r) ∈ l) : aupdate l a r = l := by
  induction l with
  | nil => rfl
  | cons hd tl ih =>
    obtain ⟨k, v⟩ := hd
    simp only [keysNodup, akeys, List.map_cons, List.nodup_cons] at hnd
    rcases List.mem_cons.mp hm with heq | htl
    · have h1 : a = k := congrArg Prod.fst heq
      have h2 : r = v := congrArg Prod.snd heq
      subst h1
      subst h2
      have hnotin : a ∉ akeys tl := hnd.1
      simp [aupdate, aupdate_not_mem tl a r hnotin]
    · have hka : k ≠ a := by
        intro hk
        exact hnd.1 (hk ▸ List.mem_map.mpr ⟨(a, r), htl, rfl⟩)
      simp only [aupdate, if_neg hka]
      exact congrArg _ (ih hnd.2 htl)

theorem alookup_append_some (l l2 : List (Nat × MReg)) (a : Nat) (r : MReg)
    (h : alookup l a = some r) : alookup (l ++ l2) a = some r := by
  induction l with
  | nil => simp [alookup] at h
  | cons hd tl ih =>
    obtain ⟨k, v⟩ := hd
    by_cases hk : k = a
    · simp only [alookup, if_pos hk] at h ⊢
      exact h
    · simp only [alookup, if_neg hk] at h ⊢
      exact ih h

theorem alookup_append_none (l l2 : List (Nat × MReg)) (a : Nat)
    (h : alookup l a = none) : alookup (l ++ l2) a = alookup l2 a := by
  induction l with
  | nil => rfl
  | cons hd tl ih =>
    obtain ⟨k, v⟩ := hd
    by_cases hk : k = a
    · simp [alookup, if_pos hk] at h
    · simp only [alookup, if_neg hk] at h ⊢
      exact ih h

theorem mem_akeys_of_alookup (l : List (Nat × MReg)) (a : Nat) (r : MReg)
    (h : alookup l a = some r) : a ∈ akeys l := by
  by_contra hc
  rw [(alookup_none_iff l a).mpr hc] at h
  exact Option.noConfusion h

theorem alookup_isSome_of_mem_akeys (l : List (Nat × MReg)) (a : Nat)
    (h : a ∈ akeys l) : ∃ r, alookup l a = some r := by
  cases hl : alookup l a with
  | none => exact absurd ((alookup_none_iff l a).mp hl) (by simp [h])
  | some r => exact ⟨r, rfl⟩

/-! ## Lemmas about the rename/compatibility loop (`phase1`) -/

theorem phase1Step_frame (addr a : Nat) (st : P1St) (h : a ≠ addr) :
    alookup (phase1Step addr st).1.s a = alookup st.s a ∧
    alookup (phase1Step addr st).1.o a = alookup st.o a := by
  unfold phase1Step
  cases hs : alookup st.s addr with
  | none =>
    cases ho : alookup st.o addr with
    | none => exact ⟨rfl, rfl⟩
    | some orr => exact ⟨rfl, rfl⟩
  | some lr =>
    cases ho : alookup st.o addr with
    | none => exact ⟨rfl, rfl⟩
    | some orr =>
      by_cases hn : orr.name = lr.name
      · simp [if_pos hn]
      · by_cases he : orr.mapping_equivalent_to lr
        · simp only [if_neg hn, if_pos he]
          exact ⟨alookup_aupdate_ne _ _ _ _ h, alookup_aupdate_ne _ _ _ _ h⟩
        · simp [if_neg hn, if_neg he]

theorem phase1Step_keys (addr : Nat) (st : P1St) :
    akeys (phase1Step addr st).1.s = akeys st.s ∧
    akeys (phase1Step addr st).1.o = akeys st.o := by
  unfold phase1Step
  cases hs : alookup st.s addr with
  | none =>
    cases ho : alookup st.o addr with
    | none => exact ⟨rfl, rfl⟩
    | some orr => exact ⟨rfl, rfl⟩
  | some lr =>
    cases ho : alookup st.o addr with
    | none => exact ⟨rfl, rfl⟩
    | some orr =>
      by_cases hn : orr.name = lr.name
      · simp [if_pos hn]
      · by_cases he : orr.mapping_equivalent_to lr
        · simp only [if_neg hn, if_pos he]
          exact ⟨akeys_aupdate _ _ _, akeys_aupdate _ _ _⟩
        · simp [if_neg hn, if_neg he]

theorem phase1Step_log (addr : Nat) (st : P1St) :
    ∃ t, (phase1Step addr st).1.log = st.log ++ t := by
  unfold phase1Step
  cases hs : alookup st.s addr with
  | none =>
    cases ho : alookup st.o addr with
    | none => exact ⟨[], (List.append_nil _).symm⟩
    | some orr => exact ⟨[], (List.append_nil _).symm⟩
  | some lr =>
    cases ho : alookup st.o addr with
    | none => exact ⟨[], (List.append_nil _).symm⟩
    | some orr =>
      by_cases hn : orr.name = lr.name
      · simp only [if_pos hn]
        exact ⟨[], (List.append_nil _).symm⟩
      · by_cases he : orr.mapping_equivalent_to lr
        · simp only [if_neg hn, if_pos he]
          exact ⟨[Diag.renameDiag lr.name orr.name], rfl⟩
        · simp only [if_neg hn, if_neg he]
          exact ⟨[], (List.append_nil _).symm⟩

theorem phase1_frame (addrs : List Nat) (st : P1St) :
    (∀ a, a ∉ addrs →
      alookup (phase1 addrs st).1.s a = alookup st.s a ∧
      alookup (phase1 addrs st).1.o a = alookup st.o a) ∧
    (∃ t, (phase1 addrs st).1.log = st.log ++ t) ∧
    akeys (phase1 addrs st).1.s = akeys st.s ∧
    akeys (phase1 addrs st).1.o = akeys st.o := by
  induction addrs generalizing st with
  | nil => exact ⟨fun a _ => ⟨rfl, rfl⟩, ⟨[], (List.append_nil _).symm⟩, rfl, rfl⟩
  | cons addr rest ih =>
    simp only [phase1]
    by_cases hr : (phase1Step addr st).2 = true
    · simp only [if_pos hr]
      obtain ⟨ihf, ⟨t2, iht⟩, ihk1, ihk2⟩ := ih (phase1Step addr st).1
      refine ⟨?_, ?_, ?_, ?_⟩
      · intro a ha
        have ha1 : a ≠ addr := fun hh => ha (hh ▸ List.mem_cons_self _ _)
        have ha2 : a ∉ rest := fun hh => ha (List.mem_cons_of_mem _ hh)
        obtain ⟨hfs, hfo⟩ := phase1Step_frame addr a st ha1
        obtain ⟨hgs, hgo⟩ := ihf a ha2
        exact ⟨hgs.trans hfs, hgo.trans hfo⟩
      · obtain ⟨t1, ht1⟩ := phase1Step_log addr st
        exact ⟨t1 ++ t2, by rw [iht, ht1, List.append_assoc]⟩
      · exact ihk1.trans (phase1Step_keys addr st).1
      · exact ihk2.trans (phase1Step_keys addr st).2
    · simp only [if_neg hr]
      refine ⟨?_, ?_, ?_, ?_⟩
      · intro a ha
        have ha1 : a ≠ addr := fun hh => ha (hh ▸ List.mem_cons_self _ _)
        exact phase1Step_frame addr a st ha1
      · exact phase1Step_log addr st
      · exact (phase1Step_keys addr st).1
      · exact (phase1Step_keys addr st).2

theorem phase1Step_compat (addr : Nat) (st : P1St) (h : compatSt st) :
    (phase1Step addr st).2 = true ∧ compatSt (phase1Step addr st).1 ∧
    (∀ a, alookup st.s a = none →
      alookup (phase1Step addr st).1.o a = alookup st.o a) := by
  unfold phase1Step
  cases hs : alookup st.s addr with
  | none =>
    cases ho : alookup st.o addr with
    | none => exact ⟨rfl, h, fun a _ => rfl⟩
    | some orr => exact ⟨rfl, h, fun a _ => rfl⟩
  | some lr =>
    cases ho : alookup st.o addr with
    | none => exact ⟨rfl, h, fun a _ => rfl⟩
    | some orr =>
      by_cases hn : orr.name = lr.name
      · simp only [if_pos hn]
        exact ⟨trivial, h, fun _ _ => trivial⟩
      · have he : orr.mapping_equivalent_to lr :=
          ((h addr lr orr hs ho).resolve_left hn)
        simp only [if_neg hn, if_pos he]
        refine ⟨trivial, ?_, ?_⟩
        · intro a lr2 orr2 hs2 ho2
          by_cases ha : a = addr
          · subst ha
            rw [alookup_aupdate_self st.s a _ (mem_akeys_of_alookup _ _ _ hs)] at hs2
            rw [alookup_aupdate_self st.o a _ (mem_akeys_of_alookup _ _ _ ho)] at ho2
            cases hs2
            cases ho2
            exact Or.inl rfl
          · rw [alookup_aupdate_ne _ _ _ _ ha] at hs2
            rw [alookup_aupdate_ne _ _ _ _ ha] at ho2
            exact h a lr2 orr2 hs2 ho2
        · intro a ha
          have hne : a ≠ addr := by
            intro hh
            rw [hh, hs] at ha
            exact Option.noConfusion ha
          exact alookup_aupdate_ne _ _ _ _ hne

theorem phase1_compat (addrs : List Nat) (st : P1St) (h : compatSt st) :
    (phase1 addrs st).2 = true ∧ compatSt (phase1 addrs st).1 ∧
    (∀ a, alookup st.s a = none →
      alookup (phase1 addrs st).1.o a = alookup st.o a) := by
  induction addrs generalizing st with
  | nil => exact ⟨rfl, h, fun a _ => rfl⟩
  | cons addr rest ih =>
    obtain ⟨hok, hc, hp⟩ := phase1Step_compat addr st h
    simp only [phase1, if_pos hok]
    obtain ⟨ihok, ihc, ihp⟩ := ih (phase1Step addr st).1 hc
    refine ⟨ihok, ihc, ?_⟩
    intro a ha
    have ha1 : alookup (phase1Step addr st).1.s a = none := by
      rw [alookup_none_iff] at ha ⊢
      rw [(phase1Step_keys addr st).1]
      exact ha
    exact (ihp a ha1).trans (hp a ha)

theorem phase1_rename (addrs : List Nat) (st : P1St) (addr : Nat) (lr orr : MReg)
    (hnd : addrs.Nodup) (hmem : addr ∈ addrs)
    (hs : alookup st.s addr = some lr) (ho : alookup st.o addr = some orr)
    (hname : ¬ orr.name = lr.name) (hequiv : orr.mapping_equivalent_to lr)
    (hok : (phase1 addrs st).2 = true) :
    alookup (phase1 addrs st).1.s addr = some { lr with name := shorterName lr.name orr.name } ∧
    alookup (phase1 addrs st).1.o addr = some { orr with name := shorterName lr.name orr.name } ∧
    Diag.renameDiag lr.name orr.name ∈ (phase1 addrs st).1.log := by
  induction addrs generalizing st with
  | nil => cases hmem
  | cons b rest ih =>
    have hstep : ∀ st2, phase1 (b :: rest) st2 =
        (let r := phase1Step b st2; if r.2 then phase1 rest r.1 else (r.1, false)) := by
      intro st2
      rfl
    by_cases hr : (phase1Step b st).2 = true
    · rw [hstep st] at hok ⊢
      simp only [if_pos hr] at hok ⊢
      rcases List.mem_cons.mp hmem with hba | hrest
      · subst hba
        have hst : phase1Step addr st =
            ({ s := aupdate st.s addr { lr with name := shorterName lr.name orr.name }
               o := aupdate st.o addr { orr with name := shorterName lr.name orr.name }
               log := st.log ++ [Diag.renameDiag lr.name orr.name] }, true) := by
          unfold phase1Step
          rw [hs, ho]
          simp only [if_neg hname, if_pos hequiv]
        rw [hst]
        have hnotin : addr ∉ rest := (List.nodup_cons.mp hnd).1
        obtain ⟨hf, ⟨t, hlog⟩, _, _⟩ := phase1_frame rest
          ({ s := aupdate st.s addr { lr with name := shorterName lr.name orr.name }
             o := aupdate st.o addr { orr with name := shorterName lr.name orr.name }
             log := st.log ++ [Diag.renameDiag lr.name orr.name] })
        obtain ⟨hfs, hfo⟩ := hf addr hnotin
        refine ⟨?_, ?_, ?_⟩
        · rw [hfs]
          exact alookup_aupdate_self _ _ _ (mem_akeys_of_alookup _ _ _ hs)
        · rw [hfo]
          exact alookup_aupdate_self _ _ _ (mem_akeys_of_alookup _ _ _ ho)
        · rw [hlog]
          simp
      · have hb : addr ≠ b := by
          intro hh
          exact (List.nodup_cons.mp hnd).1 (hh ▸ hrest)
        obtain ⟨hfs, hfo⟩ := phase1Step_frame b addr st hb
        exact ih (phase1Step b st).1 (List.nodup_cons.mp hnd).2 hrest
          (hfs.trans hs) (hfo.trans ho) hok
    · rw [hstep st] at hok
      simp only [if_neg hr] at hok
      cases hok

/-! ## Lemmas about the merging loop (`phase2`) -/

theorem phase2_keys_mono (o2 : List (Nat × MReg)) :
    ∀ s a, a ∈ akeys s → a ∈ akeys (phase2 s o2) := by
  induction o2 with
  | nil => exact fun s a h => h
  | cons hd rest ih =>
    obtain ⟨b, rb⟩ := hd
    intro s a h
    simp only [phase2]
    cases hb : alookup s b with
    | some lr => exact ih _ a (by rw [akeys_aupdate]; exact h)
    | none => exact ih _ a (by simp [akeys, List.map_append]; exact Or.inl (by simpa [akeys] using h))

theorem phase2_keys_covers (o2 : List (Nat × MReg)) :
    ∀ s a, a ∈ akeys o2 → a ∈ akeys (phase2 s o2) := by
  induction o2 with
  | nil => intro s a h; simp [akeys] at h
  | cons hd rest ih =>
    obtain ⟨b, rb⟩ := hd
    intro s a h
    simp only [akeys, List.map_cons, List.mem_cons] at h
    simp only [phase2]
    rcases h with hab | hrest
    · cases hb : alookup s b with
      | some lr =>
        refine phase2_keys_mono rest _ a ?_
        rw [akeys_aupdate]
        rw [hab]
        exact mem_akeys_of_alookup _ _ _ hb
      | none =>
        refine phase2_keys_mono rest _ a ?_
        simp [akeys, List.map_append, hab]
    · cases hb : alookup s b with
      | some lr => exact ih _ a (by simpa [akeys] using hrest)
      | none => exact ih _ a (by simpa [akeys] using hrest)

theorem phase2_stable (o2 : List (Nat × MReg)) :
    ∀ s a r, (∀ b, b ∈ akeys o2 → b ≠ a) → alookup s a = some r →
      alookup (phase2 s o2) a = some r := by
  induction o2 with
  | nil => exact fun s a r _ h => h
  | cons hd rest ih =>
    obtain ⟨b, rb⟩ := hd
    intro s a r hnot h
    have hba : b ≠ a := hnot b (by simp [akeys])
    have hnot2 : ∀ c, c ∈ akeys rest → c ≠ a := fun c hc => hnot c (by simp [akeys] at hc ⊢; exact Or.inr hc)
    simp only [phase2]
    cases hb : alookup s b with
    | some lr =>
      refine ih _ a r hnot2 ?_
      rw [alookup_aupdate_ne _ _ _ _ (fun hh => hba hh.symm)]
      exact h
    | none =>
      exact ih _ a r hnot2 (alookup_append_some _ _ _ _ h)

theorem phase2_new (o2 : List (Nat × MReg)) :
    ∀ s a r, keysNodup o2 → alookup o2 a = some r → a ∉ akeys s →
      alookup (phase2 s o2) a = some r := by
  induction o2 with
  | nil => intro s a r _ h _; simp [alookup] at h
  | cons hd rest ih =>
    obtain ⟨b, rb⟩ := hd
    intro s a r hnd ho hs
    simp only [keysNodup, akeys, List.map_cons, List.nodup_cons] at hnd
    simp only [phase2]
    by_cases hab : b = a
    · simp only [alookup, if_pos hab] at ho
      have hro : rb = r := Option.some.inj ho
      have hsl : alookup s b = none := by
        rw [hab]
        exact (alookup_none_iff _ _).mpr hs
      rw [hsl]
      refine phase2_stable rest _ a r
        (fun c hc hca => hnd.1 (by rw [hab]; exact hca ▸ hc)) ?_
      rw [alookup_append_none _ _ _ (by rw [← hab]; exact hsl)]
      simp [alookup, hab, hro]
    · simp only [alookup, if_neg hab] at ho
      cases hb : alookup s b with
      | some lr =>
        refine ih _ a r hnd.2 ho ?_
        rw [akeys_aupdate]
        exact hs
      | none =>
        refine ih _ a r hnd.2 ho ?_
        simp only [akeys, List.map_append, List.mem_append]
        rintro (h1 | h2)
        · exact hs (by simpa [akeys] using h1)
        · simp [akeys] at h2
          exact hab h2.symm

theorem phase2_shared (o2 : List (Nat × MReg)) :
    ∀ s a lr orr, keysNodup o2 → alookup s a = some lr → alookup o2 a = some orr →
      alookup (phase2 s o2) a = some (lr.merge_register orr) := by
  induction o2 with
  | nil => intro s a lr orr _ _ h; simp [alookup] at h
  | cons hd rest ih =>
    obtain ⟨b, rb⟩ := hd
    intro s a lr orr hnd hs ho
    simp only [keysNodup, akeys, List.map_cons, List.nodup_cons] at hnd
    simp only [phase2]
    by_cases hab : b = a
    · simp only [alookup, if_pos hab] at ho
      have hro : rb = orr := Option.some.inj ho
      have hsb : alookup s b = some lr := by
        rw [hab]
        exact hs
      rw [hsb]
      refine phase2_stable rest _ a _
        (fun c hc hca => hnd.1 (by rw [hab]; exact hca ▸ hc)) ?_
      rw [hro, ← hab]
      exact alookup_aupdate_self _ _ _ (mem_akeys_of_alookup _ _ _ hsb)
    · simp only [alookup, if_neg hab] at ho
      cases hb : alookup s b with
      | some lr2 =>
        refine ih _ a lr orr hnd.2 ?_ ho
        rw [alookup_aupdate_ne _ _ _ _ (fun hh => hab hh.symm)]
        exact hs
      | none =>
        exact ih _ a lr orr hnd.2 (alookup_append_some _ _ _ _ hs) ho

theorem merge_register_self (r : MReg) : r.merge_register r = r := by
  cases r
  simp [MReg.merge_register]

theorem phase2_self (l : List (Nat × MReg)) (hnd : keysNodup l) :
    ∀ l2, (∀ e, e ∈ l2 → e ∈ l) → phase2 l l2 = l := by
  intro l2
  induction l2 with
  | nil => intro _; rfl
  | cons hd rest ih =>
    obtain ⟨a, r⟩ := hd
    intro hsub
    have hmem : (a, r) ∈ l := hsub (a, r) (List.mem_cons_self _ _)
    have hl : alookup l a = some r := alookup_mem_of_nodup l a r hnd hmem
    simp only [phase2, hl]
    rw [merge_register_self, aupdate_eq_self l a r hnd hmem]
    exact ih (fun e he => hsub e (List.mem_cons_of_mem _ he))

theorem phase1_self (addrs : List Nat) (l : List (Nat × MReg)) (log : List Diag) :
    phase1 addrs ⟨l, l, log⟩ = (⟨l, l, log⟩, true) := by
  induction addrs with
  | nil => rfl
  | cons addr rest ih =>
    have hstep : phase1Step addr ⟨l, l, log⟩ = (⟨l, l, log⟩, true) := by
      unfold phase1Step
      cases hl : alookup l addr with
      | none => rfl
      | some r => simp
    simp only [phase1, hstep]
    exact ih

/-- The success flag of `merge_mapping` equals the success flag of its
rename/compatibility loop. -/
theorem merge_mapping_ok_iff (self other : MM) :
    (merge_mapping self other).ok =
      (phase1 (akeys other.register_mapping)
        ⟨self.register_mapping, other.register_mapping, []⟩).2 := by
  unfold merge_mapping
  by_cases hb : (phase1 (akeys other.register_mapping)
      ⟨self.register_mapping, other.register_mapping, []⟩).2 = true
  · rw [if_pos hb, hb]
  · rw [if_neg hb]
    exact (Bool.not_eq_true _).mp hb ▸ rfl

/-- Claim C5 — Self-merge round-trip: for every mapping `m` (with the dict
well-formedness every Python dict has — distinct keys), merging `m` with
an identical copy of itself returns `True` and leaves the mapping — its
offsets, its register content, and its chip scope — unchanged, with no
diagnostic emitted. -/
theorem merge_mapping_self_roundtrip (m : MM) (h : keysNodup m.register_mapping) :
    merge_mapping m m = ⟨true, m, m, []⟩ := by
  have h2 : phase2 m.register_mapping m.register_mapping = m.register_mapping :=
    phase2_self m.register_mapping h m.register_mapping (fun e he => he)
  unfold merge_mapping
  simp only [phase1_self, h2, Finset.union_self]
  rw [if_pos trivial]

/-- Witness for C5 at a concrete two-register mapping. -/
theorem merge_mapping_self_roundtrip_witness :
    keysNodup ([(0, ⟨"CR1", 32, {0, 1}, {1, 2}⟩), (4, ⟨"SR", 16, {0}, {3}⟩)] :
        List (Nat × MReg)) ∧
    merge_mapping ⟨{0, 1}, [(0, ⟨"CR1", 32, {0, 1}, {1, 2}⟩), (4, ⟨"SR", 16, {0}, {3}⟩)]⟩
        ⟨{0, 1}, [(0, ⟨"CR1", 32, {0, 1}, {1, 2}⟩), (4, ⟨"SR", 16, {0}, {3}⟩)]⟩ =
      ⟨true, ⟨{0, 1}, [(0, ⟨"CR1", 32, {0, 1}, {1, 2}⟩), (4, ⟨"SR", 16, {0}, {3}⟩)]⟩,
        ⟨{0, 1}, [(0, ⟨"CR1", 32, {0, 1}, {1, 2}⟩), (4, ⟨"SR", 16, {0}, {3}⟩)]⟩, []⟩ :=
  ⟨by decide,
    merge_mapping_self_roundtrip
      ⟨{0, 1}, [(0, ⟨"CR1", 32, {0, 1}, {1, 2}⟩), (4, ⟨"SR", 16, {0}, {3}⟩)]⟩ (by decide)⟩

/-- Claim C6 — Hole filling: if every offset present in both mappings holds
registers that are same-named or layout-equivalent, `merge_mapping`
returns `True`, and afterwards the receiving mapping contains every
offset of the incoming mapping; a register at an offset present only in
the incoming side is added to the receiver exactly as it is (keeping the
chip scope of the chips that had it), never dropped. -/
theorem merge_mapping_hole_filling (self other : MM)
    (hnd : keysNodup other.register_mapping)
    (hcompat : ∀ a lr orr, alookup self.register_mapping a = some lr →
      alookup other.register_mapping a = some orr →
      orr.name = lr.name ∨ orr.mapping_equivalent_to lr) :
    (merge_mapping self other).ok = true ∧
    (∀ a, a ∈ akeys other.register_mapping →
      a ∈ akeys (merge_mapping self other).self1.register_mapping) ∧
    (∀ a r, alookup other.register_mapping a = some r →
      alookup self.register_mapping a = none →
      alookup (merge_mapping self other).self1.register_mapping a = some r) := by
  have h0 : compatSt ⟨self.register_mapping, other.register_mapping, []⟩ := hcompat
  obtain ⟨hok, _, hp⟩ := phase1_compat (akeys other.register_mapping) _ h0
  obtain ⟨_, _, hks, hko⟩ := phase1_frame (akeys other.register_mapping)
    ⟨self.register_mapping, other.register_mapping, []⟩
  have hres : merge_mapping self other =
      { ok := true
        self1 := ⟨self.chips ∪ other.chips,
          phase2 (phase1 (akeys other.register_mapping)
              ⟨self.register_mapping, other.register_mapping, []⟩).1.s
            (phase1 (akeys other.register_mapping)
              ⟨self.register_mapping, other.register_mapping, []⟩).1.o⟩
        other1 := ⟨other.chips,
          (phase1 (akeys other.register_mapping)
            ⟨self.register_mapping, other.register_mapping, []⟩).1.o⟩
        log := (phase1 (akeys other.register_mapping)
          ⟨self.register_mapping, other.register_mapping, []⟩).1.log } := by
    unfold merge_mapping
    rw [if_pos hok]
  refine ⟨by rw [hres], ?_, ?_⟩
  · intro a ha
    rw [hres]
    exact phase2_keys_covers _ _ a (by rw [hko]; exact ha)
  · intro a r ho hsn
    rw [hres]
    have hoa : alookup (phase1 (akeys other.register_mapping)
        ⟨self.register_mapping, other.register_mapping, []⟩).1.o a = some r :=
      (hp a hsn).trans ho
    have hsa : a ∉ akeys (phase1 (akeys other.register_mapping)
        ⟨self.register_mapping, other.register_mapping, []⟩).1.s := by
      rw [hks]
      exact (alookup_none_iff _ _).mp hsn
    have hnd2 : keysNodup (phase1 (akeys other.register_mapping)
        ⟨self.register_mapping, other.register_mapping, []⟩).1.o := by
      unfold keysNodup
      rw [hko]
      exact hnd
    exact phase2_new _ _ a r hnd2 hoa hsa

/-- Witness for C6: the spec's Scenario 3 — the receiver has offsets 0 and
4, the incoming mapping only offset 0 with the same register name; the
merge succeeds and keeps `FOO` at offset 4; symmetric hole at offset 8 on
the incoming side is added. -/
theorem merge_mapping_hole_filling_witness :
    (keysNodup ([(0, ⟨"CR1", 32, {1}, {1}⟩), (8, ⟨"BAR", 32, {1}, {9}⟩)] :
        List (Nat × MReg)) ∧
      (∀ a lr orr,
        alookup ([(0, ⟨"CR1", 32, {0}, {1}⟩), (4, ⟨"FOO", 32, {0}, {7}⟩)] :
          List (Nat × MReg)) a = some lr →
        alookup ([(0, ⟨"CR1", 32, {1}, {1}⟩), (8, ⟨"BAR", 32, {1}, {9}⟩)] :
          List (Nat × MReg)) a = some orr →
        orr.name = lr.name ∨ orr.mapping_equivalent_to lr)) ∧
    ((merge_mapping ⟨{0}, [(0, ⟨"CR1", 32, {0}, {1}⟩), (4, ⟨"FOO", 32, {0}, {7}⟩)]⟩
        ⟨{1}, [(0, ⟨"CR1", 32, {1}, {1}⟩), (8, ⟨"BAR", 32, {1}, {9}⟩)]⟩).ok = true ∧
      alookup (merge_mapping ⟨{0}, [(0, ⟨"CR1", 32, {0}, {1}⟩), (4, ⟨"FOO", 32, {0}, {7}⟩)]⟩
          ⟨{1}, [(0, ⟨"CR1", 32, {1}, {1}⟩), (8, ⟨"BAR", 32, {1}, {9}⟩)]⟩).self1.register_mapping
        8 = some ⟨"BAR", 32, {1}, {9}⟩) := by
  constructor
  · refine ⟨by decide, ?_⟩
    intro a lr orr h1 h2
    simp only [alookup] at h1 h2
    split_ifs at h1 h2 <;>
      first
        | omega
        | exact Option.noConfusion h1
        | exact Option.noConfusion h2
        | (injection h1 with h1x; injection h2 with h2x; subst h1x; subst h2x;
           exact Or.inl rfl)
  · have h := merge_mapping_hole_filling
      ⟨{0}, [(0, ⟨"CR1", 32, {0}, {1}⟩), (4, ⟨"FOO", 32, {0}, {7}⟩)]⟩
      ⟨{1}, [(0, ⟨"CR1", 32, {1}, {1}⟩), (8, ⟨"BAR", 32, {1}, {9}⟩)]⟩
      (by decide) ?_
    · exact ⟨h.1, h.2.2 8 ⟨"BAR", 32, {1}, {9}⟩ (by decide) (by decide)⟩
    · intro a lr orr h1 h2
      simp only [alookup] at h1 h2
      split_ifs at h1 h2 <;>
        first
          | omega
          | exact Option.noConfusion h1
          | exact Option.noConfusion h2
          | (injection h1 with h1x; injection h2 with h2x; subst h1x; subst h2x;
             exact Or.inl rfl)

/-- The value `merge_mapping` returns when its rename/compatibility loop
succeeds, expressed through the loop's final state. -/
theorem merge_mapping_success_eq (self other : MM)
    (hok : (phase1 (akeys other.register_mapping)
      ⟨self.register_mapping, other.register_mapping, []⟩).2 = true) :
    merge_mapping self other =
      { ok := true
        self1 := ⟨self.chips ∪ other.chips,
          phase2 (phase1 (akeys other.register_mapping)
              ⟨self.register_mapping, other.register_mapping, []⟩).1.s
            (phase1 (akeys other.register_mapping)
              ⟨self.register_mapping, other.register_mapping, []⟩).1.o⟩
        other1 := ⟨other.chips,
          (phase1 (akeys other.register_mapping)
            ⟨self.register_mapping, other.register_mapping, []⟩).1.o⟩
        log := (phase1 (akeys other.register_mapping)
          ⟨self.register_mapping, other.register_mapping, []⟩).1.log } := by
  unfold merge_mapping
  rw [if_pos hok]

/-- Claim C3 — Rename on equivalence: on a successful merge, a shared offset
whose registers carried different names but equivalent layouts ends with
BOTH registers renamed to the shorter of the two names (the receiver's on
a length tie — "lexicographically-shorter" in the spec's phrasing, cf.
Scenario 2's `SR1`/`STATUS`), and the rename diagnostic carrying both
names is in the log. -/
theorem merge_mapping_renames_to_shorter (self other : MM)
    (hnd : keysNodup other.register_mapping)
    (addr : Nat) (lr orr : MReg)
    (hs : alookup self.register_mapping addr = some lr)
    (ho : alookup other.register_mapping addr = some orr)
    (hname : ¬ orr.name = lr.name)
    (hequiv : orr.mapping_equivalent_to lr)
    (hok : (merge_mapping self other).ok = true) :
    (∃ r1, alookup (merge_mapping self other).self1.register_mapping addr = some r1 ∧
      r1.name = shorterName lr.name orr.name) ∧
    alookup (merge_mapping self other).other1.register_mapping addr =
      some { orr with name := shorterName lr.name orr.name } ∧
    Diag.renameDiag lr.name orr.name ∈ (merge_mapping self other).log ∧
    (shorterName lr.name orr.name).length = min lr.name.length orr.name.length := by
  have hpok : (phase1 (akeys other.register_mapping)
      ⟨self.register_mapping, other.register_mapping, []⟩).2 = true := by
    rw [merge_mapping_ok_iff] at hok
    exact hok
  obtain ⟨hrs, hro2, hdiag⟩ := phase1_rename (akeys other.register_mapping)
    ⟨self.register_mapping, other.register_mapping, []⟩ addr lr orr hnd
    (mem_akeys_of_alookup _ _ _ ho) hs ho hname hequiv hpok
  have hndo : keysNodup (phase1 (akeys other.register_mapping)
      ⟨self.register_mapping, other.register_mapping, []⟩).1.o := by
    unfold keysNodup
    rw [(phase1_frame (akeys other.register_mapping)
      ⟨self.register_mapping, other.register_mapping, []⟩).2.2.2]
    exact hnd
  have hfin := phase2_shared _ _ addr _ _ hndo hrs hro2
  rw [merge_mapping_success_eq self other hpok]
  refine ⟨⟨_, hfin, rfl⟩, hro2, hdiag, ?_⟩
  simp only [shorterName]
  split_ifs with hlen <;> omega

/-- Witness for C3 at the spec's Scenario 2 (`STATUS` vs `SR1` at offset
0): the merge succeeds, both sides end up named `SR1`, and the rename is
logged. -/
theorem merge_mapping_renames_to_shorter_witness :
    (keysNodup c3other.register_mapping ∧
      alookup c3self.register_mapping 0 = some ⟨"STATUS", 32, {0}, {1}⟩ ∧
      alookup c3other.register_mapping 0 = some ⟨"SR1", 32, {1}, {1}⟩ ∧
      ¬ (MReg.name ⟨"SR1", 32, {1}, {1}⟩ = MReg.name ⟨"STATUS", 32, {0}, {1}⟩) ∧
      MReg.mapping_equivalent_to ⟨"SR1", 32, {1}, {1}⟩ ⟨"STATUS", 32, {0}, {1}⟩ ∧
      (merge_mapping c3self c3other).ok = true) ∧
    ((∃ r1, alookup (merge_mapping c3self c3other).self1.register_mapping 0 = some r1 ∧
        r1.name = shorterName "STATUS" "SR1") ∧
      alookup (merge_mapping c3self c3other).other1.register_mapping 0 =
        some ⟨"SR1", 32, {1}, {1}⟩ ∧
      Diag.renameDiag "STATUS" "SR1" ∈ (merge_mapping c3self c3other).log ∧
      (shorterName "STATUS" "SR1").length = min "STATUS".length "SR1".length) := by
  refine ⟨⟨by decide, by decide, by decide, by decide, by decide, by decide⟩, ?_⟩
  exact merge_mapping_renames_to_shorter c3self c3other (by decide) 0
    ⟨"STATUS", 32, {0}, {1}⟩ ⟨"SR1", 32, {1}, {1}⟩
    (by decide) (by decide) (by decide) (by decide) (by decide)

/-- Claim C1 (code bug) — `merge_mapping` is NOT atomic on failure, contrary
to its own docstring ("This function will not edit anything unless the
merge is possible"): on this input the merge fails (offset 8 is
incompatible), yet the registers at offsets 0 and 4, examined earlier by
the rename loop, have already been renamed — the receiving mapping's
`STATUS` became `SR1` and the incoming mapping's `ZZZZ` became `A`. -/
theorem merge_mapping_mutates_on_failure :
    (merge_mapping c1self c1other).ok = false ∧
    ¬ ((merge_mapping c1self c1other).self1 = c1self) ∧
    ¬ ((merge_mapping c1self c1other).other1 = c1other) ∧
    alookup (merge_mapping c1self c1other).self1.register_mapping 0 =
      some ⟨"SR1", 32, {0}, {1}⟩ ∧
    alookup (merge_mapping c1self c1other).other1.register_mapping 4 =
      some ⟨"A", 32, {1}, {2}⟩ := by
  decide

/-- Claim C4 (code bug) — instance reconciliation drops later unmatched
instances: merging `c4other` (instances `A@0` and `B@4`, neither present
in the accumulator) appends only `A`; when the loop reaches `B`, the
`equivalent_instance` variable still references `A` from the previous
iteration (it is never reset, `peripheral.py:156`), so `B` is not
appended — instead `A`'s chip scope is extended again.  The claim (and
`Peripheral.add_instance`, the in-file reference implementation) requires
`B` to be appended as well.  Both register lists are empty, so the merge
runs to completion (no `TypeError` from the register loop) and the full
result is pinned: its instance list holds only `A`. -/
theorem merge_peripheral_drops_unmatched_instance :
    merge_peripheral c4self c4other =
      .ok ⟨{0, 1}, [], [⟨"A", 0, {1}⟩], [⟨{0, 1}, []⟩]⟩ ∧
    (∀ i, i ∈ [(⟨"A", 0, {1}⟩ : PInstance)] → ¬ (i.name = "B")) ∧
    (∀ i, i ∈ c4other.instances → i.name = "B" → i.address = 4) := by
  decide

/-- The incoming mapping's chip scope is never changed by a merge attempt
(only its registers can be renamed). -/
theorem merge_mapping_other_chips (self other : MM) :
    (merge_mapping self other).other1.chips = other.chips := by
  unfold merge_mapping
  by_cases hb : (phase1 (akeys other.register_mapping)
      ⟨self.register_mapping, other.register_mapping, []⟩).2 = true
  · rw [if_pos hb]
  · rw [if_neg hb]

/-- Through the whole scan of `attemptMerge` the incoming mapping keeps its
chip scope. -/
theorem attemptMerge_other_chips (ms : List MM) (om : MM) :
    (attemptMerge ms om).2.1.chips = om.chips := by
  induction ms generalizing om with
  | nil => rfl
  | cons m rest ih =>
    simp only [attemptMerge]
    by_cases hok : (merge_mapping m om).ok = true
    · rw [if_pos hok]
      exact merge_mapping_other_chips m om
    · rw [if_neg hok]
      exact (ih _).trans (merge_mapping_other_chips m om)

/-- The instance loop only ever grows the accumulator's chip scope. -/
theorem instGo_chips_mono (oc : ChipSet) (others : List PInstance) :
    ∀ (insts : List PInstance) (chips : ChipSet) (eqi : Option Nat),
      chips ⊆ (instGo oc others insts chips eqi).2 := by
  induction others with
  | nil => intro insts chips eqi; exact Finset.Subset.refl _
  | cons oi rest ih =>
    intro insts chips eqi
    simp only [instGo]
    cases hf : insts.findIdx? (fun i => i.sameKey oi) with
    | some i =>
      exact Finset.Subset.trans Finset.subset_union_left (ih _ _ _)
    | none =>
      cases eqi with
      | none => exact Finset.Subset.trans Finset.subset_union_left (ih _ _ _)
      | some i => exact Finset.Subset.trans Finset.subset_union_left (ih _ _ _)

/-- The register loop makes `merge_peripheral` raise `TypeError` whenever
both the accumulator and the incoming peripheral hold at least one
register (cf. `register.py:108`), before mapping reconciliation runs. -/
theorem mergeRegistersPhase_raises (acc regs : List MReg)
    (ha : ¬ (acc = [])) (hr : ¬ (regs = [])) :
    mergeRegistersPhase acc regs = .error "TypeError" := by
  obtain ⟨x, xs, hx⟩ := List.exists_cons_of_ne_nil hr
  obtain ⟨y, ys, hy⟩ := List.exists_cons_of_ne_nil ha
  rw [hx, hy]
  rfl

/-- `merge_peripheral` propagates the register loop's `TypeError`. -/
theorem merge_peripheral_raises (self other : Peripheral)
    (ha : ¬ (self.registers = [])) (hr : ¬ (other.registers = [])) :
    merge_peripheral self other = .error "TypeError" := by
  unfold merge_peripheral
  rw [mergeRegistersPhase_raises self.registers other.registers ha hr]

/-- Claim C7 — Merge-conflict recovery keeps both sides: whenever the
register-reconciliation loop completes (returns instead of raising
`TypeError`, e.g. the accumulator holds no registers — see
`merge_peripheral_raises` for the raising inputs) and every mapping of
the accumulator rejects the incoming mapping (the in-order scan of
`attemptMerge` finds no success), `merge_peripheral` returns normally and
appends the incoming mapping (in its final, possibly partially renamed
state) to the mapping list instead of discarding it, the incoming mapping
still carries its original chip scope, and that scope is still added to
the accumulator's chips. -/
theorem merge_peripheral_keeps_rejected_mapping (self other : Peripheral)
    (om : MM) (regs : List MReg)
    (hregs : mergeRegistersPhase self.registers other.registers = .ok regs)
    (hm : other.mappings = [om])
    (hfail : (attemptMerge self.mappings om).2.2.1 = false) :
    ∃ p, merge_peripheral self other = .ok p ∧
      p.mappings =
        (attemptMerge self.mappings om).1 ++ [(attemptMerge self.mappings om).2.1] ∧
      (attemptMerge self.mappings om).2.1.chips = om.chips ∧
      om.chips ⊆ p.chips := by
  unfold merge_peripheral mergeMappingsPhase
  rw [hregs, hm]
  simp only [List.foldl_cons, List.foldl_nil, hfail]
  refine ⟨_, rfl, rfl, attemptMerge_other_chips self.mappings om, ?_⟩
  refine Finset.Subset.trans ?_ (instGo_chips_mono other.chips other.instances _ _ _)
  rw [attemptMerge_other_chips self.mappings om]
  exact Finset.subset_union_right

/-- Witness for C7: the register lists are empty (so the register loop
completes), the single existing mapping holds an incompatible register at
offset 0, so the attempt fails and the incoming mapping is kept as a
second alternative. -/
theorem merge_peripheral_keeps_rejected_mapping_witness :
    (mergeRegistersPhase c7self.registers c7other.registers = .ok [] ∧
      c7other.mappings = [c7om] ∧
      (attemptMerge c7self.mappings c7om).2.2.1 = false) ∧
    (∃ p, merge_peripheral c7self c7other = .ok p ∧
      p.mappings =
        (attemptMerge c7self.mappings c7om).1 ++ [(attemptMerge c7self.mappings c7om).2.1] ∧
      (attemptMerge c7self.mappings c7om).2.1.chips = c7om.chips ∧
      c7om.chips ⊆ p.chips) :=
  ⟨⟨rfl, rfl, by decide⟩,
    merge_peripheral_keeps_rejected_mapping c7self c7other c7om [] rfl rfl (by decide)⟩

/-- Claim C2 — `needs_define` (the spec's `needs_guard`) is true iff the
name is non-null, the parent is non-null and the chip scope differs from
the parent's; in particular, a child whose scope equals its parent's
reports `false`, and a named child whose scope is a strict non-empty
subset of its parent's reports `true`. -/
theorem needs_define_spec (c : Component) :
    (c.needs_define = true ↔
      (¬ (c.name = none) ∧ ∃ p, c.parent = some p ∧ ¬ (c.chips = p.chips))) ∧
    (∀ p, c.parent = some p → c.chips = p.chips → c.needs_define = false) ∧
    (∀ p, c.parent = some p → ¬ (c.name = none) → c.chips ⊂ p.chips →
      c.chips.Nonempty → c.needs_define = true) := by
  cases c with
  | mk n ch pa =>
    cases pa with
    | none =>
      simp [Component.needs_define, Component.name, Component.chips, Component.parent]
    | some p =>
      cases n with
      | none =>
        simp [Component.needs_define, Component.name, Component.chips, Component.parent]
      | some s =>
        simp only [Component.needs_define, Component.name, Component.chips,
          Component.parent, Option.isSome_some, Bool.true_and]
        refine ⟨?_, ?_, ?_⟩
        · constructor
          · intro h
            exact ⟨by simp, p, rfl, of_decide_eq_true h⟩
          · rintro ⟨-, q, hq, hne⟩
            cases hq
            exact decide_eq_true hne
        · intro q hq heq
          cases hq
          simp [heq]
        · intro q hq _ hsub _
          cases hq
          exact decide_eq_true (Finset.ssubset_iff_subset_ne.mp hsub).2

/-- Witness for C2: a named child with scope `{1}` under a parent with
scope `{1, 2}` needs a guard; a named child with the parent's exact scope
does not. -/
theorem needs_define_spec_witness :
    (c2guarded.parent = some c2parent ∧ ¬ (c2guarded.name = none) ∧
      c2guarded.chips ⊂ c2parent.chips ∧ c2guarded.chips.Nonempty ∧
      c2unguarded.parent = some c2parent ∧ c2unguarded.chips = c2parent.chips) ∧
    (c2guarded.needs_define = true ∧ c2unguarded.needs_define = false) :=
  ⟨⟨rfl, by decide, by decide, by decide, rfl, by decide⟩,
    ⟨(needs_define_spec c2guarded).2.2 c2parent rfl (by decide) (by decide) (by decide),
      (needs_define_spec c2unguarded).2.1 c2parent rfl (by decide)⟩⟩

/-! ## The correction-pass traversal order (C8) -/

theorem bscPasses_split (l1 l2 : List Corrector) (cor : Corrector)
    (cs : List CTree) (i : Nat) :
    bscPasses (l1 ++ cor :: l2) cs i =
      bscPasses l1 cs i ++
        (bscKids cs (some cor) ++ ((cor.label, i) :: bscPasses l2 cs i)) := by
  induction l1 with
  | nil => simp [bscPasses]
  | cons c rest ih => simp [bscPasses, ih]

theorem bsc_eq_passes (i : Nat) (cs : List CTree) (c : Corrector)
    (h : ¬ (c.lookup i = [])) :
    bsc (.node i cs) (some c) = bscPasses (c.lookup i) cs i := by
  cases hl : c.lookup i with
  | nil => exact absurd hl h
  | cons a l =>
    rw [bsc]
    simp [hl]

/-- Claim C8 amended — `before_svd_compile` applies corrections depth-first
POST-order per pass: for every corrector `cor` in the node's corrector
list, the trace contains, contiguously, first all corrector applications
performed in the children's recursion under `cor` and only then the
node's own application of `cor`.  (The claim's pre-order — node before
descendants — is the reverse and is refuted separately.) -/
theorem before_svd_compile_descendants_first (i : Nat) (cs : List CTree)
    (c cor : Corrector) (h : cor ∈ c.lookup i) :
    ∃ pre post, bsc (.node i cs) (some c) =
      pre ++ (bscKids cs (some cor) ++ ((cor.label, i) :: post)) := by
  obtain ⟨l1, l2, hsplit⟩ := List.append_of_mem h
  have hne : ¬ (c.lookup i = []) := by
    rw [hsplit]
    simp
  rw [bsc_eq_passes i cs c hne, hsplit, bscPasses_split]
  exact ⟨bscPasses l1 cs i, bscPasses l2 cs i, rfl⟩

/-- Witness for the amended C8 on the concrete two-node tree. -/
theorem before_svd_compile_descendants_first_witness :
    c8cor ∈ c8top.lookup 1 ∧
    ∃ pre post, bsc (.node 1 [.node 2 []]) (some c8top) =
      pre ++ (bscKids [.node 2 []] (some c8cor) ++ ((c8cor.label, 1) :: post)) := by
  have hmem : c8cor ∈ c8top.lookup 1 := by
    have he : c8top.lookup 1 = [c8cor] := rfl
    rw [he]
    exact List.mem_cons_self _ _
  exact ⟨hmem, before_svd_compile_descendants_first 1 [.node 2 []] c8top c8cor hmem⟩

/-- Claim C8 counterexample — the claim's pre-order is false: on the
two-node tree, the full trace is `[(1, 2), (0, 1)]`, i.e. the CHILD's
correction (corrector 1 applied to node 2) runs strictly before the
root's own correction (corrector 0 applied to node 1), so the root's own
correction functions are not applied before its descendant's. -/
theorem before_svd_compile_not_preorder :
    bsc c8tree (some c8top) = [(1, 2), (0, 1)] ∧
    ¬ ((bsc c8tree (some c8top)).findIdx (fun e => e == ((0 : Nat), (1 : Nat))) <
       (bsc c8tree (some c8top)).findIdx (fun e => e == ((1 : Nat), (2 : Nat)))) := by
  have h : bsc c8tree (some c8top) = [(1, 2), (0, 1)] := by
    simp [c8tree, c8top, c8cor, c8leafCor, bsc, bscPasses, bscKids,
      Corrector.lookup, List.find?, Corrector.label]
  refine ⟨h, ?_⟩
  rw [h]
  decide

/-! ## The name setter (C9) -/

/-- Claim C9 counterexample — the stored-name invariant fails: assigning the
name `A-B` (reachable, e.g. any `Component` constructed with that name)
stores it even though it is neither an identifier nor alphanumeric; the
setter only logs an error (`component.py:63`) and stores the value
anyway, so a non-null, non-identifier name rests in the node. -/
theorem name_setter_stores_invalid_name :
    setName ⟨none, true⟩ (some "A-B") = (⟨some "A-B", true⟩, true) ∧
    pyIsIdentifier "A-B" = false ∧ pyIsAlnum "A-B" = false := by
  decide

/-- Claim C9 amended — what the setter guarantees: when the assigned name
differs from the stored one, the stored result is exactly the input with
`[` substituted by `_` and `]` removed, and the identifier check is only
a diagnostic — no error is logged iff the substituted name passes
Python's `isidentifier`-or-`isalnum` test, but the name is stored in
either case. -/
theorem setName_stores_bracket_substituted (st : NameSlot) (n : String)
    (h : ¬ (some n = st.stored)) :
    (setName st (some n)).1.stored = some (bracketSub n) ∧
    (setName st (some n)).1.edited = true ∧
    ((setName st (some n)).2 = false ↔
      (pyIsIdentifier (bracketSub n) || pyIsAlnum (bracketSub n)) = true) := by
  unfold setName
  rw [if_neg h]
  refine ⟨rfl, rfl, ?_⟩
  cases hi : pyIsIdentifier (bracketSub n) <;>
    cases ha : pyIsAlnum (bracketSub n) <;> simp [hi, ha]

/-- Witness for the amended C9: assigning `D[1]` to a fresh slot stores
`D_1` with no error logged. -/
theorem setName_stores_bracket_substituted_witness :
    (¬ (some "D[1]" = (NameSlot.stored ⟨none, true⟩)) ∧ bracketSub "D[1]" = "D_1") ∧
    ((setName ⟨none, true⟩ (some "D[1]")).1.stored = some (bracketSub "D[1]") ∧
      (setName ⟨none, true⟩ (some "D[1]")).1.edited = true ∧
      ((setName ⟨none, true⟩ (some "D[1]")).2 = false ↔
        (pyIsIdentifier (bracketSub "D[1]") || pyIsAlnum (bracketSub "D[1]")) = true)) :=
  ⟨⟨by decide, by decide⟩,
    setName_stores_bracket_substituted ⟨none, true⟩ "D[1]" (by decide)⟩

/-! ## Register/string comparison raises (C10) -/

/-- Claim C10 — `Register.__eq__` raises `TypeError` on a string operand, so
comparing any register with any string raises instead of returning a
boolean; consequently the string-membership iteration used by
`merge_peripheral`'s register reconciliation (`reg.name in self`) and by
the classification cleaners (`"TIMINGR" in periph`) raises `TypeError` on
any peripheral holding at least one register instead of reporting the
name absent. -/
theorem register_eq_str_raises (r : Reg) (s : String) (regs : List Reg)
    (p : CleanerPeriph) (hr : ¬ (regs = [])) (hp : ¬ (p.registers = [])) :
    register_eq r (.pystr s) = .error "TypeError" ∧
    strInRegisters s regs = .error "TypeError" ∧
    I2C_periph_cleaner p = .error "TypeError" := by
  refine ⟨rfl, ?_, ?_⟩
  · obtain ⟨x, xs, hx⟩ := List.exists_cons_of_ne_nil hr
    rw [hx]
    rfl
  · obtain ⟨x, xs, hx⟩ := List.exists_cons_of_ne_nil hp
    unfold I2C_periph_cleaner
    rw [hx]
    rfl

/-- Witness for C10 on a one-register peripheral. -/
theorem register_eq_str_raises_witness :
    (¬ ([c10reg] = ([] : List Reg)) ∧ ¬ (c10periph.registers = [])) ∧
    (register_eq c10reg (.pystr "TIMINGR") = .error "TypeError" ∧
      strInRegisters "TIMINGR" [c10reg] = .error "TypeError" ∧
      I2C_periph_cleaner c10periph = .error "TypeError") :=
  ⟨⟨by decide, by decide⟩,
    register_eq_str_raises c10reg "TIMINGR" [c10reg] c10periph (by decide) (by decide)⟩
